import Mathlib

/-!
Verification development for the online grammar-driven token parser
(`src/utils/onlineParser.js`).  The JavaScript source is shallowly embedded:
the mutable `ParserState` object becomes a Lean structure threaded through
pure functions, and the module-level snapshot cache (`stateCache`) becomes an
explicit extra argument and result of `getToken`.

Modelling conventions, matching the JavaScript semantics:

* A JavaScript object field that may be *absent* (never yet assigned) is
  modelled as an `Option` when absence is observable.  Absence is observable
  exactly through `assign` (`Object.keys` only copies present fields), which
  is used by `saveState`/`restoreState`.  After `startState` the fields
  `kind`, `name`, `type`, `rule`, `step`, `needsSeperator`, `prevState` and
  `level` are always present, so they are modelled as plain fields
  (`none`-valued `Option` fields model JavaScript `null`/`undefined` values);
  `needsAdvance`, `indentLevel` and `levels` are created lazily, so for them
  `none` models a genuinely absent key.
* The `prevState` chain (each node a full shallow copy of the state at push
  time) is modelled as a list of frame cores, nearest ancestor first.  Chain
  nodes are never mutated after creation in the source, so value semantics
  coincide with the JavaScript reference semantics.
* The host stream/editor collaborators are not part of this repository's
  core; following the specification (sections 4.1 and 6) their per-call
  contributions are abstracted into a `TokenInput` record: start-of-line
  flag, measured indentation, whether `eatWhitespace` consumed input,
  whether the line-comment pattern matched, and the lexed token (if any).
  The editor's `tabSize` configuration value is passed explicitly.
* The two `while` loops of `advanceRule`/`unsuccessful` pop one frame per
  iteration, so the stack length bounds their iteration count; they are
  written with a structural fuel of `stack.length + 1`, which provably never
  runs out.  The rule-interpretation loop of `getToken` can diverge on
  cyclic grammars (the specification notes this), so it takes an explicit
  fuel and returns `none` when the fuel is exhausted.
* Terminal `update` callbacks populate the `name`/`type` scratch fields of
  the current frame (specification section 3); they are modelled as
  functions on that pair.
* Degenerate numeric corners of JavaScript (`NaN` from a missing
  `indentLevel` or a zero `tabSize`) are outside the modelled range; the
  theorems that touch indentation assume the field is present.
-/

/-- A lexed token: a `(kind, value)` pair. -/
structure Token where
  kind : String
  value : String
deriving DecidableEq, Repr

/-- A terminal grammar item: a style tag, a token predicate, and an optional
side effect that may rewrite the current frame's `name`/`type` scratch
fields. -/
structure Terminal where
  style : String
  matchFn : Token → Bool
  update : Option (Token → Option String × Option String → Option String × Option String)

/-- A grammar item as it appears inside a rule definition: a bare rule-name
string, a terminal object, or an `opt`/`list` wrapper (`ofRule` plus the
`isList` flag and optional `separator`). -/
inductive RuleItem where
  | ruleName (name : String)
  | terminal (t : Terminal)
  | wrapped (ofRule : RuleItem) (isList : Bool) (separator : Option RuleItem)

/-- A rule definition from `ParseRules`: an array of items, or a forking
function evaluated on the current token (the source also passes the stream,
which the specification's `ForkRule` contract does not use). -/
inductive RuleDef where
  | seq (items : List RuleItem)
  | fork (choose : Token → Option RuleItem)

/-- The `ParseRules` table: rule name to rule definition; a missing name
yields `none` (JavaScript `undefined`). -/
def Grammar : Type := String → Option RuleDef

/-- An optional rule (`opt` in the source). -/
def opt (ofRule : RuleItem) : RuleItem := .wrapped ofRule false none

/-- A list of another rule (`list` in the source). -/
def list (ofRule : RuleItem) (separator : Option RuleItem) : RuleItem :=
  .wrapped ofRule true separator

/-- The `butNot` combinator: augments a terminal's predicate to also require
that every exclusion's predicate rejects the token. -/
def butNot (rule : Terminal) (exclusions : List Terminal) : Terminal :=
  { rule with matchFn := fun token =>
      rule.matchFn token && exclusions.all fun exclusion => !exclusion.matchFn token }

/-- Token-of-a-kind terminal builder (`t` in the source). -/
def t (kind : String) (style : String) : Terminal :=
  { style := style, matchFn := fun token => token.kind == kind, update := none }

/-- Punctuator terminal builder (`p` in the source). -/
def p (value : String) (style : String := "punctuation") : Terminal :=
  { style := style,
    matchFn := fun token => token.kind == "Punctuation" && token.value == value,
    update := none }

/-- The scalar fields of a parser state (one frame's view).  `prevState`
chain nodes are values of this type. -/
structure SCore where
  level : Nat
  kind : Option String
  name : Option String
  type : Option String
  rule : Option RuleDef
  step : Nat
  needsSeperator : Bool
  needsAdvance : Option Bool
  indentLevel : Option Nat
  levels : Option (List Nat)

/-- The full `ParserState`: the current frame's fields plus the `prevState`
chain (nearest ancestor first; `[]` models an absent `prevState`). -/
structure PState extends SCore where
  stack : List SCore

/-- The bare object `{ level: 0 }` built at the start of `startState`,
before the root rule is pushed.  Fields other than `level` are absent in the
source at this point; this is also the model of the empty initial
`stateCache` object. -/
def initialState : PState :=
  { level := 0, kind := none, name := none, type := none, rule := none,
    step := 0, needsSeperator := false, needsAdvance := none,
    indentLevel := none, levels := none, stack := [] }

/-- Push a new rule frame onto the state (`pushRule` in the source): save a
copy of the current frame as `prevState`, then re-initialise the frame
fields for the named rule. -/
def pushRule (ParseRules : Grammar) (state : PState) (ruleKind : String) : PState :=
  { state with
    stack := state.toSCore :: state.stack,
    kind := some ruleKind, name := none, type := none,
    rule := ParseRules ruleKind, step := 0, needsSeperator := false }

/-- Pop the current rule frame (`popRule`): restore the six frame fields
from `prevState` and drop one chain node.  The source dereferences
`state.prevState` unconditionally; an empty chain (unreachable for states
this machine produces while a rule is present) is modelled as a no-op. -/
def popRule (state : PState) : PState :=
  match state.stack with
  | [] => state
  | prev :: rest =>
    { state with
      kind := prev.kind, name := prev.name, type := prev.type,
      rule := prev.rule, step := prev.step, needsSeperator := prev.needsSeperator,
      stack := rest }

/-- Whether the current frame is positioned on a `List` item
(`isList(state)` in the source: `Array.isArray(rule) && rule[step].isList`). -/
def isList (state : PState) : Bool :=
  match state.rule with
  | some (.seq items) =>
    match items.get? state.step with
    | some (.wrapped _ l _) => l
    | _ => false
  | _ => false

/-- The separator declared by the current frame's current item, if any
(`state.rule[state.step].separator`). -/
def sepAt (state : PState) : Option RuleItem :=
  match state.rule with
  | some (.seq items) =>
    match items.get? state.step with
    | some (.wrapped _ _ sep) => sep
    | _ => none
  | _ => none

/-- One guard of `advanceRule`'s completion loop: the current rule is an
in-range array (the loop continues while this is false and a rule is
present). -/
def ruleInRange (r : RuleDef) (step : Nat) : Bool :=
  match r with
  | .seq items => decide (step < items.length)
  | .fork _ => false

/-- The parent-frame adjustment performed after each pop of the completion
loop (`if (state.rule) { if (isList(state)) ... else ... }`): a parent
mid-`List` keeps its step (toggling `needsSeperator` when a separator is
declared) so the list may repeat; any other parent is advanced. -/
def advanceAdjust (state : PState) : PState :=
  match state.rule with
  | none => state
  | some _ =>
    if isList state then
      match sepAt state with
      | some _ => { state with needsSeperator := !state.needsSeperator }
      | none => state
    else { state with needsSeperator := false, step := state.step + 1 }

/-- The completion loop at the end of `advanceRule`: while the current rule
is exhausted, pop it and adjust the parent.  Fuel-bounded: each iteration
pops one frame, so `stack.length + 1` fuel always suffices. -/
def advanceLoopAux : Nat → PState → PState
  | 0, state => state
  | n + 1, state =>
    match state.rule with
    | none => state
    | some r =>
      if ruleInRange r state.step then state
      else
        match state.stack with
        | [] => state
        | _ :: _ => advanceLoopAux n (advanceAdjust (popRule state))

/-- Entry point of the completion loop with its always-sufficient fuel. -/
def advanceLoop (state : PState) : PState :=
  advanceLoopAux (state.stack.length + 1) state

/-- The step-increment tail of `advanceRule` (`needsSeperator = false`,
`step++`, then the completion loop). -/
def advanceRuleStep (state : PState) : PState :=
  advanceLoop { state with needsSeperator := false, step := state.step + 1 }

/-- Advance the current rule (`advanceRule`): a `List` frame with a
separator toggles `needsSeperator` (an early return when the toggle lands on
the element position); a successful `List` match is allowed to repeat;
otherwise the step advances and completed frames cascade upward. -/
def advanceRule (state : PState) (successful : Bool) : PState :=
  if isList state then
    match sepAt state with
    | some _ =>
      let state := { state with needsSeperator := !state.needsSeperator }
      if !state.needsSeperator then state
      else if successful then state
      else advanceRuleStep state
    | none =>
      if successful then state
      else advanceRuleStep state
  else advanceRuleStep state

/-- Whether the current frame tolerates a failure at the current step: the
rule is an array and its current item is an `opt`/`list` wrapper
(`Array.isArray(state.rule) && state.rule[state.step].ofRule`). -/
def tolerantAt (r : RuleDef) (step : Nat) : Bool :=
  match r with
  | .seq items =>
    match items.get? step with
    | some (.wrapped _ _ _) => true
    | _ => false
  | .fork _ => false

/-- The unwind loop of `unsuccessful`: pop frames while a rule is present
and the current item is not an `opt`/`list` wrapper; if a (tolerant) frame
remains, advance it with `successful = false`.  Fuel-bounded as in
`advanceLoopAux`. -/
def unsuccessfulAux : Nat → PState → PState
  | 0, state => state
  | n + 1, state =>
    match state.rule with
    | none => state
    | some r =>
      if tolerantAt r state.step then advanceRule state false
      else
        match state.stack with
        | [] => state
        | _ :: _ => unsuccessfulAux n (popRule state)

/-- Unwind the state after an unsuccessful match (`unsuccessful`). -/
def unsuccessful (state : PState) : PState :=
  unsuccessfulAux (state.stack.length + 1) state

/-- The expected item for the current token: a fork rule is evaluated only
at step 0, a sequence is indexed by the step, and while a separator is
awaited only the current item's separator is offered. -/
def expectedAt (r : RuleDef) (step : Nat) (needsSeperator : Bool) (token : Token) :
    Option RuleItem :=
  let expected : Option RuleItem :=
    match r with
    | .fork choose => if step == 0 then choose token else none
    | .seq items => items.get? step
  if needsSeperator then
    match expected with
    | some (.wrapped _ _ sep) => sep
    | _ => none
  else expected

/-- Unwrap one `opt`/`list` layer (`if (expected.ofRule) expected =
expected.ofRule`). -/
def unwrapItem (e : RuleItem) : RuleItem :=
  match e with
  | .wrapped ofRule _ _ => ofRule
  | other => other

/-- Run a terminal's optional `update` callback on the frame's `name`/`type`
scratch fields. -/
def applyUpdate (term : Terminal) (state : PState) (token : Token) : PState :=
  match term.update with
  | none => state
  | some f =>
    let nt := f token (state.name, state.type)
    { state with name := nt.1, type := nt.2 }

/-- Result of the rule-interpretation loop: a terminal matched and returned
a style, or the frame stack was unwound to nothing. -/
inductive LoopResult where
  | matched (style : String) (state : PState)
  | exhausted (state : PState)

/-- The `while (state.rule)` loop of `getToken`: interpret the expected item
(push on a rule name and retry, match a terminal, or unwind and retry).
Returns `none` if the fuel runs out (the source can loop forever on cyclic
grammars). -/
def tokenLoop (ParseRules : Grammar) (token : Token) : Nat → PState → Option LoopResult
  | 0, _ => none
  | fuel + 1, state =>
    match state.rule with
    | none => some (.exhausted state)
    | some r =>
      match expectedAt r state.step state.needsSeperator token with
      | none => tokenLoop ParseRules token fuel (unsuccessful state)
      | some e =>
        match unwrapItem e with
        | .ruleName name => tokenLoop ParseRules token fuel (pushRule ParseRules state name)
        | .wrapped _ _ _ => tokenLoop ParseRules token fuel (unsuccessful state)
        | .terminal term =>
          if term.matchFn token then
            let state := applyUpdate term state token
            if token.kind == "Punctuation" then
              some (.matched term.style (advanceRule state true))
            else
              some (.matched term.style { state with needsAdvance := some true })
          else tokenLoop ParseRules token fuel (unsuccessful state)

/-- First characters the indentation tracker treats as openers. -/
def openers : List Char := [Char.ofNat 123, '(', '[']

/-- First characters the indentation tracker treats as closers. -/
def closers : List Char := [Char.ofNat 125, ')', ']']

/-- Whether a token value's first character is in the given set (the
source's anchored character-class regex test). -/
def startsWithOneOf (value : String) (cs : List Char) : Bool :=
  match value.data with
  | [] => false
  | c :: _ => cs.contains c

/-- The indentation bookkeeping of `getToken` for a punctuation token: an
opener pushes `indentLevel + 1` onto `levels`; a closer pops `levels` and
lowers `indentLevel` to the new top when that is shallower.  A missing
`indentLevel` (JavaScript `NaN` arithmetic) is outside the modelled range;
the closer comparison, as in the source, only fires when `indentLevel` is
present. -/
def updateLevels (state : PState) (token : Token) : PState :=
  if token.kind == "Punctuation" then
    if startsWithOneOf token.value openers then
      { state with levels := some ((state.levels.getD []) ++ [(state.indentLevel.getD 0) + 1]) }
    else if startsWithOneOf token.value closers then
      let levels := (state.levels.getD []).dropLast
      let state := { state with levels := some levels }
      match levels.getLast?, state.indentLevel with
      | some last, some indentLevel =>
        if last < indentLevel then { state with indentLevel := some last } else state
      | _, _ => state
    else state
  else state

/-- The field-copy helper (`assign(to, from)`): every field present on the
source object overwrites the destination's; fields absent on the source
(the lazily-created `needsAdvance`/`indentLevel`/`levels`) leave the
destination's value in place. -/
def assign (dst src : PState) : PState :=
  { src with
    needsAdvance := src.needsAdvance.or dst.needsAdvance,
    indentLevel := src.indentLevel.or dst.indentLevel,
    levels := src.levels.or dst.levels }

/-- Save the current state into the snapshot cache (`saveState`). -/
def saveState (stateCache state : PState) : PState := assign stateCache state

/-- Restore the live state from the snapshot cache (`restoreState`). -/
def restoreState (state stateCache : PState) : PState := assign state stateCache

/-- The per-call contribution of the host stream/editor collaborators.
Modelled from the spec: the stream abstraction (start-of-line detection,
indentation measurement, whitespace eating, line-comment matching) and the
lexer's output are supplied by the host and are not part of this
repository's core source. -/
structure TokenInput where
  sol : Bool
  indentation : Nat
  eatWs : Bool
  lineCommentMatch : Bool
  lexed : Option Token

/-- The state preamble of `getToken`: perform a pending deferred advance,
then recompute `indentLevel` at start of line.  This is the state the
snapshot captures ("immediately before the token is interpreted"). -/
def preTokenState (tabSize : Nat) (inp : TokenInput) (state : PState) : PState :=
  let state :=
    if state.needsAdvance = some true then
      advanceRule { state with needsAdvance := some false } true
    else state
  if inp.sol then
    { state with indentLevel := some (inp.indentation / tabSize) }
  else state

/-- The per-token entry point (`getToken`): preamble, whitespace/comment
shortcuts, lexing shortcut, snapshot, indentation bookkeeping, the rule
loop, and on total failure the restore.  Returns the style tag, the updated
state, and the updated snapshot cache; `none` only when the rule loop's fuel
runs out. -/
def getToken (ParseRules : Grammar) (tabSize : Nat) (fuel : Nat)
    (inp : TokenInput) (state stateCache : PState) :
    Option (String × PState × PState) :=
  let state := preTokenState tabSize inp state
  if inp.eatWs then some ("ws", state, stateCache)
  else if inp.lineCommentMatch then some ("comment", state, stateCache)
  else
    match inp.lexed with
    | none => some ("invalidchar", state, stateCache)
    | some token =>
      let stateCache := saveState stateCache state
      let state := updateLevels state token
      match tokenLoop ParseRules token fuel state with
      | none => none
      | some (.matched style state) => some (style, state, stateCache)
      | some (.exhausted state) =>
        some ("invalidchar", restoreState state stateCache, stateCache)

/-- The initialization entry point (`startState`): the bare `{ level: 0 }`
object with the root `Document` rule pushed. -/
def startState (ParseRules : Grammar) : PState :=
  pushRule ParseRules initialState "Document"

/-- Run `getToken` over a list of token inputs, threading state and cache;
`none` if any call exhausts its rule-loop fuel. -/
def runTokens (ParseRules : Grammar) (tabSize : Nat) (fuel : Nat) :
    List TokenInput → PState → PState → Option (List String × PState × PState)
  | [], state, stateCache => some ([], state, stateCache)
  | inp :: rest, state, stateCache =>
    match getToken ParseRules tabSize fuel inp state stateCache with
    | none => none
    | some (style, state, stateCache) =>
      match runTokens ParseRules tabSize fuel rest state stateCache with
      | none => none
      | some (styles, s, c) => some (style :: styles, s, c)

/-- Compatibility of a state with a snapshot-cache value: every lazily
created field present in the cache is present in the state.  This is the
invariant a single parser maintains for its own cache (field presence is
monotone and the cache only ever receives copies of earlier states). -/
def cacheCompat (state stateCache : PState) : Prop :=
  (stateCache.needsAdvance.isSome = true → state.needsAdvance.isSome = true) ∧
  (stateCache.indentLevel.isSome = true → state.indentLevel.isSome = true) ∧
  (stateCache.levels.isSome = true → state.levels.isSome = true)

instance (state stateCache : PState) : Decidable (cacheCompat state stateCache) := by
  unfold cacheCompat; infer_instance

/-- A token that triggers no indentation bookkeeping: not a punctuation
token whose value starts with a bracket character. -/
def bracketNeutral (token : Token) : Bool :=
  !(token.kind == "Punctuation" &&
    (startsWithOneOf token.value openers || startsWithOneOf token.value closers))

/-! ### Concrete fixtures used by counterexamples and witnesses -/

/-- A grammar whose `Document` rule expects a single `Name` token. -/
def gNameOnly : Grammar := fun name =>
  if name == "Document" then some (.seq [.terminal (t "Name" "name")]) else none

/-- A grammar whose `Document` rule is an open paren followed by a number. -/
def gParenNumber : Grammar := fun name =>
  if name == "Document" then
    some (.seq [.terminal (p "(" "punctuation"), .terminal (t "Number" "number")])
  else none

/-- An opening-paren punctuation token. -/
def tokOpenParen : Token := { kind := "Punctuation", value := "(" }

/-- A number token. -/
def tokNumber : Token := { kind := "Number", value := "1" }

/-- A name token. -/
def tokName : Token := { kind := "Name", value := "foo" }

/-- A token-input record carrying a lexed token and no whitespace/comment. -/
def inpOf (tok : Token) (sol : Bool) : TokenInput :=
  { sol := sol, indentation := 0, eatWs := false, lineCommentMatch := false,
    lexed := some tok }

/-- A token-input record for a whitespace-only call. -/
def inpWs : TokenInput :=
  { sol := false, indentation := 0, eatWs := true, lineCommentMatch := false,
    lexed := none }

/-- A token-input record for a line-comment call. -/
def inpComment : TokenInput :=
  { sol := false, indentation := 0, eatWs := false, lineCommentMatch := true,
    lexed := none }

/-! ### Preservation of the lazily-created fields

The machine operations other than the indentation bookkeeping, the snapshot
restore and the match commit never touch `needsAdvance`, `indentLevel` or
`levels`; these lemmas make that precise. -/

/-- The three lazily-created fields of a state, bundled. -/
def lazyFields (s : PState) : Option Bool × Option Nat × Option (List Nat) :=
  (s.needsAdvance, s.indentLevel, s.levels)

theorem lazyFields_popRule (s : PState) : lazyFields (popRule s) = lazyFields s := by
  cases h : s.stack <;> simp [popRule, h, lazyFields]

theorem lazyFields_pushRule (ParseRules : Grammar) (s : PState) (rk : String) :
    lazyFields (pushRule ParseRules s rk) = lazyFields s := rfl

theorem lazyFields_advanceAdjust (s : PState) :
    lazyFields (advanceAdjust s) = lazyFields s := by
  unfold advanceAdjust
  split
  · rfl
  · split
    · split <;> rfl
    · rfl

theorem lazyFields_advanceLoopAux (n : Nat) :
    ∀ s : PState, lazyFields (advanceLoopAux n s) = lazyFields s := by
  induction n with
  | zero => intro s; rfl
  | succ n ih =>
    intro s
    unfold advanceLoopAux
    split
    · rfl
    · split
      · rfl
      · split
        · rfl
        · rw [ih, lazyFields_advanceAdjust, lazyFields_popRule]

theorem lazyFields_advanceLoop (s : PState) :
    lazyFields (advanceLoop s) = lazyFields s :=
  lazyFields_advanceLoopAux _ s

theorem lazyFields_advanceRuleStep (s : PState) :
    lazyFields (advanceRuleStep s) = lazyFields s := by
  unfold advanceRuleStep
  rw [lazyFields_advanceLoop]; rfl

theorem lazyFields_advanceRule (s : PState) (successful : Bool) :
    lazyFields (advanceRule s successful) = lazyFields s := by
  unfold advanceRule
  split
  · split
    · simp only []
      split
      · rfl
      · split
        · rfl
        · rw [lazyFields_advanceRuleStep]; rfl
    · split
      · rfl
      · rw [lazyFields_advanceRuleStep]
  · rw [lazyFields_advanceRuleStep]

theorem lazyFields_unsuccessfulAux (n : Nat) :
    ∀ s : PState, lazyFields (unsuccessfulAux n s) = lazyFields s := by
  induction n with
  | zero => intro s; rfl
  | succ n ih =>
    intro s
    unfold unsuccessfulAux
    split
    · rfl
    · split
      · rw [lazyFields_advanceRule]
      · split
        · rfl
        · rw [ih, lazyFields_popRule]

theorem lazyFields_unsuccessful (s : PState) :
    lazyFields (unsuccessful s) = lazyFields s :=
  lazyFields_unsuccessfulAux _ s

theorem lazyFields_applyUpdate (term : Terminal) (s : PState) (token : Token) :
    lazyFields (applyUpdate term s token) = lazyFields s := by
  unfold applyUpdate
  split <;> rfl

/-- Unpack a `lazyFields` equality into the three field equalities. -/
theorem lazyFields_proj {s s' : PState} (h : lazyFields s' = lazyFields s) :
    s'.needsAdvance = s.needsAdvance ∧ s'.indentLevel = s.indentLevel ∧
      s'.levels = s.levels := by
  simp only [lazyFields, Prod.mk.injEq] at h
  exact ⟨h.1, h.2.1, h.2.2⟩

/-- On the exhausted path the rule-interpretation loop never touches the
lazily-created fields. -/
theorem tokenLoop_exhausted_lazyFields (ParseRules : Grammar) (token : Token) :
    ∀ (fuel : Nat) (s s1 : PState),
      tokenLoop ParseRules token fuel s = some (.exhausted s1) →
      lazyFields s1 = lazyFields s := by
  intro fuel
  induction fuel with
  | zero => intro s s1 h; cases h
  | succ fuel ih =>
    intro s s1 h
    rw [tokenLoop] at h
    revert h
    split
    · intro h; cases h; rfl
    · split
      · intro h; rw [ih _ _ h, lazyFields_unsuccessful]
      · split
        · intro h; rw [ih _ _ h, lazyFields_pushRule]
        · intro h; rw [ih _ _ h, lazyFields_unsuccessful]
        · split
          · intro h
            split at h <;> cases h
          · intro h; rw [ih _ _ h, lazyFields_unsuccessful]

/-- On the matched path the loop preserves `indentLevel` and `levels`, and
either preserves `needsAdvance` or sets it to schedule the deferred
advance. -/
theorem tokenLoop_matched_fields (ParseRules : Grammar) (token : Token) :
    ∀ (fuel : Nat) (s : PState) (sty : String) (s1 : PState),
      tokenLoop ParseRules token fuel s = some (.matched sty s1) →
      s1.indentLevel = s.indentLevel ∧ s1.levels = s.levels ∧
        (s1.needsAdvance = s.needsAdvance ∨ s1.needsAdvance = some true) := by
  intro fuel
  induction fuel with
  | zero => intro s sty s1 h; cases h
  | succ fuel ih =>
    intro s sty s1 h
    rw [tokenLoop] at h
    revert h
    split
    · intro h; cases h
    · split
      · intro h
        obtain ⟨a, b, c⟩ := ih _ _ _ h
        obtain ⟨ua, ub, uc⟩ := lazyFields_proj (lazyFields_unsuccessful _)
        exact ⟨a.trans ub, b.trans uc, c.imp (fun e => e.trans ua) id⟩
      · split
        · intro h
          obtain ⟨a, b, c⟩ := ih _ _ _ h
          obtain ⟨ua, ub, uc⟩ := lazyFields_proj (lazyFields_pushRule ParseRules _ _)
          exact ⟨a.trans ub, b.trans uc, c.imp (fun e => e.trans ua) id⟩
        · intro h
          obtain ⟨a, b, c⟩ := ih _ _ _ h
          obtain ⟨ua, ub, uc⟩ := lazyFields_proj (lazyFields_unsuccessful _)
          exact ⟨a.trans ub, b.trans uc, c.imp (fun e => e.trans ua) id⟩
        · split
          · intro h
            split at h
            · injection h with h
              injection h with hsty hstate
              obtain ⟨ra, rb, rc⟩ :=
                lazyFields_proj (lazyFields_advanceRule (applyUpdate _ _ token) true)
              obtain ⟨pa, pb, pc⟩ := lazyFields_proj (lazyFields_applyUpdate _ _ token)
              subst hstate
              exact ⟨rb.trans pb, rc.trans pc, Or.inl (ra.trans pa)⟩
            · injection h with h
              injection h with hsty hstate
              obtain ⟨pa, pb, pc⟩ := lazyFields_proj (lazyFields_applyUpdate _ _ token)
              subst hstate
              exact ⟨pb, pc, Or.inr rfl⟩
          · intro h
            obtain ⟨a, b, c⟩ := ih _ _ _ h
            obtain ⟨ua, ub, uc⟩ := lazyFields_proj (lazyFields_unsuccessful _)
            exact ⟨a.trans ub, b.trans uc, c.imp (fun e => e.trans ua) id⟩

/-! ### Behaviour of the indentation bookkeeping on the lazy fields -/

/-- A bracket-neutral token leaves the state untouched by `updateLevels`. -/
theorem updateLevels_neutral (s : PState) (token : Token)
    (h : bracketNeutral token = true) : updateLevels s token = s := by
  unfold updateLevels
  split
  · split
    · simp_all [bracketNeutral]
    · split
      · simp_all [bracketNeutral]
      · rfl
  · rfl

theorem updateLevels_needsAdvance (s : PState) (token : Token) :
    (updateLevels s token).needsAdvance = s.needsAdvance := by
  unfold updateLevels
  simp only []
  repeat' split
  all_goals rfl

theorem updateLevels_indentLevel_of_none (s : PState) (token : Token)
    (h : s.indentLevel = none) : (updateLevels s token).indentLevel = none := by
  unfold updateLevels
  simp only []
  repeat' split
  all_goals simp_all

theorem updateLevels_indentLevel_isSome (s : PState) (token : Token)
    (h : s.indentLevel.isSome = true) : (updateLevels s token).indentLevel.isSome = true := by
  unfold updateLevels
  simp only []
  repeat' split
  all_goals simp_all

theorem updateLevels_levels_isSome (s : PState) (token : Token)
    (h : s.levels.isSome = true) : (updateLevels s token).levels.isSome = true := by
  unfold updateLevels
  simp only []
  repeat' split
  all_goals simp_all

/-! ### The snapshot/restore pair -/

/-- Restoring from a snapshot taken of `pre` yields `pre` exactly, provided
each lazily-created field was either present on `pre` or absent from both
the prior cache and the state being overwritten. -/
theorem restore_assign_eq (pre cache s1 : PState)
    (h1 : pre.needsAdvance.isSome = true ∨
      (cache.needsAdvance = none ∧ s1.needsAdvance = none))
    (h2 : pre.indentLevel.isSome = true ∨
      (cache.indentLevel = none ∧ s1.indentLevel = none))
    (h3 : pre.levels.isSome = true ∨ (cache.levels = none ∧ s1.levels = none)) :
    restoreState s1 (saveState cache pre) = pre := by
  obtain ⟨⟨lv, k, nm, ty, r, st, ns, na, il, lvs⟩, stk⟩ := pre
  have e1 : (na.or cache.needsAdvance).or s1.needsAdvance = na := by
    rcases h1 with h | ⟨hc, hs⟩
    · cases na
      · cases h
      · rfl
    · cases na <;> simp_all [Option.or]
  have e2 : (il.or cache.indentLevel).or s1.indentLevel = il := by
    rcases h2 with h | ⟨hc, hs⟩
    · cases il
      · cases h
      · rfl
    · cases il <;> simp_all [Option.or]
  have e3 : (lvs.or cache.levels).or s1.levels = lvs := by
    rcases h3 with h | ⟨hc, hs⟩
    · cases lvs
      · cases h
      · rfl
    · cases lvs <;> simp_all [Option.or]
  simp only [restoreState, saveState, assign]
  simp [e1, e2, e3]

/-! ### Claim C9 -/

/-- C9 (counterexample): the claim says `startState` returns a state whose
`levels` field equals the empty list and whose `indentLevel` field equals 0.
In the source `startState` builds `\x7b level: 0 \x7d` — the `levels` and
`indentLevel` fields are absent (unset), not `[]` and `0`. -/
theorem c9_counterexample :
    ¬ ((startState gNameOnly).levels = some [] ∧
       (startState gNameOnly).indentLevel = some (0 : Nat)) :=
  fun h => Option.noConfusion h.1

/-- C9 (amended): `startState` returns a fresh root state carrying only the
vestigial `level = 0` field, with `levels` and `indentLevel` unset (they
behave as empty/zero because every later read guards them), and with the
root frame pushed for the `Document` rule at step 0 above the bare initial
object. -/
theorem c9_startState (ParseRules : Grammar) :
    startState ParseRules =
      { level := 0, kind := some "Document", name := none, type := none,
        rule := ParseRules "Document", step := 0, needsSeperator := false,
        needsAdvance := none, indentLevel := none, levels := none,
        stack := [initialState.toSCore] } := rfl

/-! ### Claim C10 -/

/-- C10: `butNot` leaves the style (and update hook) of the rule unchanged
and augments its predicate so that it accepts a token exactly when the
original predicate accepts it and every exclusion's predicate rejects it.
(The in-place-mutation aspect of the source is invisible under value
semantics: the returned terminal is the input terminal with only `match`
replaced.) -/
theorem c10_butNot (rule : Terminal) (exclusions : List Terminal) (token : Token) :
    (butNot rule exclusions).style = rule.style ∧
    (butNot rule exclusions).update = rule.update ∧
    ((butNot rule exclusions).matchFn token = true ↔
      (rule.matchFn token = true ∧ ∀ e ∈ exclusions, e.matchFn token = false)) := by
  refine ⟨rfl, rfl, ?_⟩
  simp [butNot, List.all_eq_true]

/-! ### Claim C5 -/

/-- The pre-token state used by the C5 counterexample: a fresh parser with a
deferred advance pending. -/
def stPendingAdvance : PState := { startState gNameOnly with needsAdvance := some true }

/-- C5 (counterexample): the claim says a whitespace call leaves the state
completely unchanged, `step`/`needsAdvance` included.  But the deferred
advance runs before the whitespace check: starting from a state with
`needsAdvance` pending, the `'ws'` call clears the flag and advances (here
popping the completed root rule, so `kind` changes from `Document` to
unset). -/
theorem c5_counterexample :
    ((getToken gNameOnly 2 10 inpWs stPendingAdvance initialState).map
        fun r => (r.1, r.2.1.kind, r.2.1.needsAdvance)) =
      some ("ws", none, some false) ∧
    stPendingAdvance.kind = some "Document" ∧
    stPendingAdvance.needsAdvance = some true := ⟨rfl, rfl, rfl⟩

/-- C5 (amended): a whitespace (resp. line-comment) call returns the `'ws'`
(resp. `'comment'`) style and leaves the state and cache completely
unchanged, provided the per-call preamble has nothing to do: no deferred
advance is pending and the call is not at start of line. -/
theorem c5_amended (ParseRules : Grammar) (tabSize fuel : Nat) (inp : TokenInput)
    (state stateCache : PState)
    (hna : state.needsAdvance ≠ some true) (hsol : inp.sol = false) :
    (inp.eatWs = true →
      getToken ParseRules tabSize fuel inp state stateCache =
        some ("ws", state, stateCache)) ∧
    (inp.eatWs = false → inp.lineCommentMatch = true →
      getToken ParseRules tabSize fuel inp state stateCache =
        some ("comment", state, stateCache)) := by
  have hpre : preTokenState tabSize inp state = state := by
    unfold preTokenState
    rw [if_neg hna, hsol]
    rfl
  constructor
  · intro hw
    unfold getToken
    rw [hpre, hw]
    rfl
  · intro hw hc
    unfold getToken
    rw [hpre, hw, hc]
    rfl

/-- Witness for `c5_amended` at a fresh parser. -/
theorem c5_amended_witness :
    getToken gNameOnly 2 10 inpWs (startState gNameOnly) initialState =
      some ("ws", startState gNameOnly, initialState) ∧
    getToken gNameOnly 2 10 inpComment (startState gNameOnly) initialState =
      some ("comment", startState gNameOnly, initialState) :=
  ⟨(c5_amended gNameOnly 2 10 inpWs (startState gNameOnly) initialState
      (fun h => nomatch h) rfl).1 rfl,
   (c5_amended gNameOnly 2 10 inpComment (startState gNameOnly) initialState
      (fun h => nomatch h) rfl).2 rfl rfl⟩

/-! ### Claim C1 -/

/-- C1 (counterexample): the claim says that when lexing succeeds but the
rule loop unwinds the whole stack, the state afterwards equals the pre-token
state field for field, the indentation fields included.  On a fresh parser
(no `levels` field yet) an unrecognized opening paren refutes this: the
snapshot has no `levels` key to restore, so the `levels` array created by
the bookkeeping survives the restore (`some [1]` afterwards versus absent
before), even though the style is the unrecognized-token style and the loop
did exhaust the stack. -/
theorem c1_counterexample :
    ((getToken gNameOnly 2 10 (inpOf tokOpenParen true) (startState gNameOnly)
        initialState).map fun r => (r.1, r.2.1.levels)) =
      some ("invalidchar", some [1]) ∧
    (preTokenState 2 (inpOf tokOpenParen true) (startState gNameOnly)).levels = none ∧
    (match tokenLoop gNameOnly tokOpenParen 10
        (updateLevels (preTokenState 2 (inpOf tokOpenParen true) (startState gNameOnly))
          tokOpenParen) with
      | some (.exhausted _) => True
      | _ => False) := ⟨rfl, rfl, trivial⟩

/-- C1 (amended): when lexing succeeds and the rule loop unwinds the whole
stack, `getToken` returns the unrecognized-token style and restores the
state to the pre-token snapshot field for field — provided the snapshot
cache holds no stale fields the state lacks, and the `levels` field either
already exists or the token triggers no bracket bookkeeping (otherwise the
freshly created `levels` array survives the restore). -/
theorem c1_amended (ParseRules : Grammar) (tabSize fuel : Nat) (inp : TokenInput)
    (state stateCache : PState) (token : Token) (s1 : PState)
    (hw : inp.eatWs = false) (hcm : inp.lineCommentMatch = false)
    (hlex : inp.lexed = some token)
    (hcompat : cacheCompat (preTokenState tabSize inp state) stateCache)
    (hlev : (preTokenState tabSize inp state).levels.isSome = true ∨
      bracketNeutral token = true)
    (hloop : tokenLoop ParseRules token fuel
        (updateLevels (preTokenState tabSize inp state) token) = some (.exhausted s1)) :
    getToken ParseRules tabSize fuel inp state stateCache =
      some ("invalidchar", preTokenState tabSize inp state,
        saveState stateCache (preTokenState tabSize inp state)) := by
  obtain ⟨hna1, hil1, hlv1⟩ :=
    lazyFields_proj (tokenLoop_exhausted_lazyFields ParseRules token fuel _ _ hloop)
  obtain ⟨hc1, hc2, hc3⟩ := hcompat
  have hbody :
      getToken ParseRules tabSize fuel inp state stateCache =
        some ("invalidchar",
          restoreState s1 (saveState stateCache (preTokenState tabSize inp state)),
          saveState stateCache (preTokenState tabSize inp state)) := by
    unfold getToken
    rw [hw, hcm, hlex]
    simp only []
    rw [hloop]
    rfl
  rw [hbody]
  refine congrArg _ (congrArg _ (congrArg (fun z => (z, _)) ?_))
  apply restore_assign_eq
  · cases hna : (preTokenState tabSize inp state).needsAdvance with
    | some b => exact Or.inl rfl
    | none =>
      refine Or.inr ⟨?_, ?_⟩
      · cases hcc : stateCache.needsAdvance with
        | none => rfl
        | some b =>
          have := hc1 (by rw [hcc]; rfl)
          rw [hna] at this; cases this
      · rw [hna1, updateLevels_needsAdvance, hna]
  · cases hil : (preTokenState tabSize inp state).indentLevel with
    | some b => exact Or.inl rfl
    | none =>
      refine Or.inr ⟨?_, ?_⟩
      · cases hcc : stateCache.indentLevel with
        | none => rfl
        | some b =>
          have := hc2 (by rw [hcc]; rfl)
          rw [hil] at this; cases this
      · rw [hil1, updateLevels_indentLevel_of_none _ _ hil]
  · rcases hlev with hlev | hlev
    · exact Or.inl hlev
    · cases hlvs : (preTokenState tabSize inp state).levels with
      | some b => exact Or.inl rfl
      | none =>
        refine Or.inr ⟨?_, ?_⟩
        · cases hcc : stateCache.levels with
          | none => rfl
          | some b =>
            have := hc3 (by rw [hcc]; rfl)
            rw [hlvs] at this; cases this
        · rw [hlv1, updateLevels_neutral _ _ hlev, hlvs]

/-- Witness for `c1_amended`: a bracket-neutral `Number` token rejected by a
grammar expecting a `Name`, on a fresh parser with an empty cache. -/
theorem c1_amended_witness :
    getToken gNameOnly 2 10 (inpOf tokNumber true) (startState gNameOnly) initialState =
      some ("invalidchar", preTokenState 2 (inpOf tokNumber true) (startState gNameOnly),
        saveState initialState
          (preTokenState 2 (inpOf tokNumber true) (startState gNameOnly))) :=
  c1_amended gNameOnly 2 10 (inpOf tokNumber true) (startState gNameOnly) initialState
    tokNumber { initialState with indentLevel := some 0 }
    rfl rfl rfl (by decide) (Or.inr rfl) rfl

/-! ### Claim C3 -/

/-- The pre-token state used by the C3 counterexample: a parser whose
`levels` field already exists (it has seen brackets before). -/
def stWithLevels : PState :=
  { startState gNameOnly with levels := some [], indentLevel := some 0 }

/-- C3 (counterexample): the claim says the bracket bookkeeping survives
even when the token is reported as unrecognized-for-context.  But the
snapshot is taken *before* the bookkeeping, so the restore rolls it back:
here an unrecognized opening paren momentarily pushes onto `levels`
(`some [1]`), yet the state afterwards has the pre-token `levels = some []`
again. -/
theorem c3_counterexample :
    ((getToken gNameOnly 2 10 (inpOf tokOpenParen false) stWithLevels initialState).map
        fun r => (r.1, r.2.1.levels)) = some ("invalidchar", some []) ∧
    (updateLevels (preTokenState 2 (inpOf tokOpenParen false) stWithLevels)
        tokOpenParen).levels = some [1] := ⟨rfl, rfl⟩

/-- C3 (amended): the indentation bookkeeping happens before grammar
matching, and it survives whenever the token is accepted by a terminal; on
the unrecognized-for-context path, however, the restore rolls `levels` back
to the pre-token snapshot whenever that field existed before the token (only
a freshly created `levels` array survives, the snapshot having no such field
to write back). -/
theorem c3_amended :
    (∀ (ParseRules : Grammar) (tabSize fuel : Nat) (inp : TokenInput)
        (state stateCache : PState) (token : Token) (sty : String) (s1 : PState),
      inp.eatWs = false → inp.lineCommentMatch = false → inp.lexed = some token →
      tokenLoop ParseRules token fuel
          (updateLevels (preTokenState tabSize inp state) token) =
        some (.matched sty s1) →
      getToken ParseRules tabSize fuel inp state stateCache =
          some (sty, s1, saveState stateCache (preTokenState tabSize inp state)) ∧
        s1.levels = (updateLevels (preTokenState tabSize inp state) token).levels ∧
        s1.indentLevel =
          (updateLevels (preTokenState tabSize inp state) token).indentLevel) ∧
    (∀ (ParseRules : Grammar) (tabSize fuel : Nat) (inp : TokenInput)
        (state stateCache : PState) (token : Token) (s1 : PState) (lv : List Nat),
      inp.eatWs = false → inp.lineCommentMatch = false → inp.lexed = some token →
      (preTokenState tabSize inp state).levels = some lv →
      tokenLoop ParseRules token fuel
          (updateLevels (preTokenState tabSize inp state) token) =
        some (.exhausted s1) →
      ((getToken ParseRules tabSize fuel inp state stateCache).map
          fun r => (r.1, r.2.1.levels)) = some ("invalidchar", some lv)) := by
  constructor
  · intro ParseRules tabSize fuel inp state stateCache token sty s1 hw hcm hlex hloop
    obtain ⟨hil, hlv, _⟩ := tokenLoop_matched_fields ParseRules token fuel _ _ _ hloop
    refine ⟨?_, hlv, hil⟩
    unfold getToken
    rw [hw, hcm, hlex]
    simp only []
    rw [hloop]
    rfl
  · intro ParseRules tabSize fuel inp state stateCache token s1 lv hw hcm hlex hlvs hloop
    have hbody :
        getToken ParseRules tabSize fuel inp state stateCache =
          some ("invalidchar",
            restoreState s1 (saveState stateCache (preTokenState tabSize inp state)),
            saveState stateCache (preTokenState tabSize inp state)) := by
      unfold getToken
      rw [hw, hcm, hlex]
      simp only []
      rw [hloop]
      rfl
    rw [hbody]
    simp [restoreState, saveState, assign, hlvs, Option.or]

/-- Witness for `c3_amended`: its success half at an accepted open paren
(the pushed `levels` entry survives), and its failure half at a rejected
open paren from a state whose `levels` field exists (rolled back). -/
theorem c3_amended_witness :
    (getToken gParenNumber 2 10 (inpOf tokOpenParen true) (startState gParenNumber)
        initialState =
      some ("punctuation",
        advanceRule
          (updateLevels (preTokenState 2 (inpOf tokOpenParen true) (startState gParenNumber))
            tokOpenParen) true,
        saveState initialState
          (preTokenState 2 (inpOf tokOpenParen true) (startState gParenNumber))) ∧
     (advanceRule
          (updateLevels (preTokenState 2 (inpOf tokOpenParen true) (startState gParenNumber))
            tokOpenParen) true).levels =
        (updateLevels (preTokenState 2 (inpOf tokOpenParen true) (startState gParenNumber))
            tokOpenParen).levels ∧
     (advanceRule
          (updateLevels (preTokenState 2 (inpOf tokOpenParen true) (startState gParenNumber))
            tokOpenParen) true).indentLevel =
        (updateLevels (preTokenState 2 (inpOf tokOpenParen true) (startState gParenNumber))
            tokOpenParen).indentLevel) ∧
    ((getToken gNameOnly 2 10 (inpOf tokOpenParen false) stWithLevels initialState).map
        fun r => (r.1, r.2.1.levels)) = some ("invalidchar", some []) :=
  ⟨c3_amended.1 gParenNumber 2 10 (inpOf tokOpenParen true) (startState gParenNumber)
      initialState tokOpenParen "punctuation" _ rfl rfl rfl rfl,
   c3_amended.2 gNameOnly 2 10 (inpOf tokOpenParen false) stWithLevels initialState
      tokOpenParen _ [] rfl rfl rfl rfl rfl⟩

/-! ### Claim C2 -/

/-- C2: the source declares `stateCache` at module scope, shared by every
parser instance, and `assign` never clears stale fields.  Interleaving a
second parser's `getToken` calls between two calls of the first therefore
*can* alter what the first parser's restore writes back: after parser B (on
`gParenNumber`) processes `(` and `1`, the shared cache holds B's
`levels = [1]`; a fresh parser A (on `gNameOnly`) whose unrecognized token
triggers a restore then receives B's `levels` — with a private (fresh)
cache the same call leaves `levels` unset. -/
theorem c2_sharedCacheInjection :
    (match runTokens gParenNumber 2 10
        [inpOf tokOpenParen true, inpOf tokNumber false]
        (startState gParenNumber) initialState with
     | some (_, _, pollutedCache) =>
        ((getToken gNameOnly 2 10 (inpOf tokNumber true) (startState gNameOnly)
            pollutedCache).map fun r => (r.1, r.2.1.levels)) =
          some ("invalidchar", some [1]) ∧
        ((getToken gNameOnly 2 10 (inpOf tokNumber true) (startState gNameOnly)
            initialState).map fun r => (r.1, r.2.1.levels)) =
          some ("invalidchar", none)
     | none => False) := by
  exact ⟨rfl, rfl⟩

/-! ### Claim C4 -/

/-- C4: when the expected item is a terminal whose predicate matches the
current token, the rule is advanced immediately (within the same call)
exactly when the token's kind is punctuation, and otherwise the
`needsAdvance` flag is set instead; and the very next `getToken` call first
clears a pending `needsAdvance` and performs the deferred advance before
any processing of its own token, so that it behaves exactly like a call on
the already-advanced state. -/
theorem c4_deferredAdvance :
    (∀ (ParseRules : Grammar) (token : Token) (fuel : Nat) (state : PState)
        (r : RuleDef) (e : RuleItem) (term : Terminal),
      state.rule = some r →
      expectedAt r state.step state.needsSeperator token = some e →
      unwrapItem e = .terminal term →
      term.matchFn token = true →
      tokenLoop ParseRules token (fuel + 1) state =
        some (.matched term.style
          (if token.kind == "Punctuation" then
            advanceRule (applyUpdate term state token) true
          else { applyUpdate term state token with needsAdvance := some true }))) ∧
    (∀ (ParseRules : Grammar) (tabSize fuel : Nat) (inp : TokenInput)
        (state stateCache : PState),
      state.needsAdvance = some true →
      getToken ParseRules tabSize fuel inp state stateCache =
        getToken ParseRules tabSize fuel inp
          (advanceRule { state with needsAdvance := some false } true) stateCache) := by
  constructor
  · intro ParseRules token fuel state r e term hrule hexp hunwrap hmatch
    rw [tokenLoop, hrule]
    simp only [hexp, hunwrap, hmatch]
    cases hc : token.kind == "Punctuation" <;> simp [hc]
  · intro ParseRules tabSize fuel inp state stateCache hna
    have hadv : (advanceRule { state with needsAdvance := some false } true).needsAdvance =
        some false := by
      have := (lazyFields_proj
        (lazyFields_advanceRule { state with needsAdvance := some false } true)).1
      rw [this]
    have hpre : preTokenState tabSize inp state =
        preTokenState tabSize inp (advanceRule { state with needsAdvance := some false } true) := by
      simp [preTokenState, hna, hadv]
    unfold getToken
    rw [hpre]

/-- Witness for `c4_deferredAdvance`: the punctuation and non-punctuation
branches of the immediate/deferred commit, and the deferred advance of a
pending flag on the next call. -/
theorem c4_deferredAdvance_witness :
    tokenLoop gParenNumber tokOpenParen (9 + 1) (startState gParenNumber) =
      some (.matched "punctuation"
        (if tokOpenParen.kind == "Punctuation" then
          advanceRule (applyUpdate (p "(" "punctuation") (startState gParenNumber) tokOpenParen) true
        else { applyUpdate (p "(" "punctuation") (startState gParenNumber) tokOpenParen with
          needsAdvance := some true })) ∧
    tokenLoop gNameOnly tokName (9 + 1) (startState gNameOnly) =
      some (.matched "name"
        (if tokName.kind == "Punctuation" then
          advanceRule (applyUpdate (t "Name" "name") (startState gNameOnly) tokName) true
        else { applyUpdate (t "Name" "name") (startState gNameOnly) tokName with
          needsAdvance := some true })) ∧
    getToken gNameOnly 2 10 inpWs stPendingAdvance initialState =
      getToken gNameOnly 2 10 inpWs
        (advanceRule { stPendingAdvance with needsAdvance := some false } true) initialState :=
  ⟨c4_deferredAdvance.1 gParenNumber tokOpenParen 9 (startState gParenNumber)
      (.seq [.terminal (p "(" "punctuation"), .terminal (t "Number" "number")])
      (.terminal (p "(" "punctuation")) (p "(" "punctuation") rfl rfl rfl rfl,
   c4_deferredAdvance.1 gNameOnly tokName 9 (startState gNameOnly)
      (.seq [.terminal (t "Name" "name")])
      (.terminal (t "Name" "name")) (t "Name" "name") rfl rfl rfl rfl,
   c4_deferredAdvance.2 gNameOnly 2 10 inpWs stPendingAdvance initialState rfl⟩

/-! ### Claim C7 -/

/-- A one-item rule body: a separator-delimited list of numbers. -/
def itemsNumList : List RuleItem :=
  [list (.terminal (t "Number" "number")) (some (.terminal (p "," "punctuation")))]

/-- A state positioned on the number-list item, expecting an element. -/
def stListElem : PState :=
  { startState gNameOnly with
    rule := some (RuleDef.seq itemsNumList)
    step := 0
    needsSeperator := false }

/-- A state positioned on the number-list item, expecting the separator. -/
def stListSep : PState := { stListElem with needsSeperator := true }

/-- The bracketed-number-list grammar of the C7 counterexample. -/
def gBracketList : Grammar := fun name =>
  if name == "Document" then
    some (.seq [.terminal (p "[" "punctuation"),
      list (.terminal (t "Number" "number")) (some (.terminal (p "," "punctuation"))),
      .terminal (p "]" "punctuation")])
  else none

/-- An opening-bracket punctuation token. -/
def tokLBracket : Token := { kind := "Punctuation", value := "[" }

/-- C7 (counterexample): the claim says a `List` with a separator never
accepts two elements consecutively.  It does: on tokens `[`, `1`, `1` the
second number fails the expected separator, the unwind finds the list frame
tolerant and `advanceRule` with `successful = false` toggles
`needsSeperator` back, and the retry accepts the same token as a second
consecutive element — the run's styles are `punctuation, number, number`
(the separator's style, `punctuation`, is never produced between the two
`number` element styles). -/
theorem c7_counterexample :
    ((runTokens gBracketList 2 10
        [inpOf tokLBracket true, inpOf tokNumber false, inpOf tokNumber false]
        (startState gBracketList) initialState).map fun r => r.1) =
      some ["punctuation", "number", "number"] := rfl

/-- C7 (amended): inside a `List` item that declares a separator, the
*offered* expectations strictly alternate — while `needsSeperator` is set
only the separator is offered, while it is clear only the element (the
wrapper's `ofRule`) — and each successful commit at the frame flips the flag
in place.  But a token that fails the expected separator is not rejected
outright: the unwind treats the separator occurrence as matched zero times
(`advanceRule` with `successful = false`), which toggles `needsSeperator`
back to the element position, so the very same token is retried — and may be
accepted — as the next element.  Strict element/separator alternation
therefore holds only across successful matches; a failed separator
expectation lets two elements be accepted consecutively. -/
theorem c7_amended :
    (∀ (items : List RuleItem) (step : Nat) (inner sep : RuleItem) (token : Token),
      items.get? step = some (.wrapped inner true (some sep)) →
      expectedAt (.seq items) step true token = some sep) ∧
    (∀ (items : List RuleItem) (step : Nat) (inner sep : RuleItem) (token : Token),
      items.get? step = some (.wrapped inner true (some sep)) →
      expectedAt (.seq items) step false token =
          some (.wrapped inner true (some sep)) ∧
        unwrapItem (.wrapped inner true (some sep)) = inner) ∧
    (∀ (state : PState) (items : List RuleItem) (inner sep : RuleItem),
      state.rule = some (.seq items) →
      items.get? state.step = some (.wrapped inner true (some sep)) →
      state.needsSeperator = true →
      advanceRule state true = { state with needsSeperator := false }) ∧
    (∀ (state : PState) (items : List RuleItem) (inner sep : RuleItem),
      state.rule = some (.seq items) →
      items.get? state.step = some (.wrapped inner true (some sep)) →
      state.needsSeperator = false →
      advanceRule state true = { state with needsSeperator := true }) ∧
    (∀ (state : PState) (items : List RuleItem) (inner sep : RuleItem),
      state.rule = some (.seq items) →
      items.get? state.step = some (.wrapped inner true (some sep)) →
      state.needsSeperator = true →
      unsuccessful state = { state with needsSeperator := false }) := by
  refine ⟨?_, ?_, ?_, ?_, ?_⟩
  · intro items step inner sep token hitem
    rw [List.get?_eq_getElem?] at hitem
    simp [expectedAt, hitem]
  · intro items step inner sep token hitem
    rw [List.get?_eq_getElem?] at hitem
    exact ⟨by simp [expectedAt, hitem], rfl⟩
  · intro state items inner sep hrule hitem hns
    rw [List.get?_eq_getElem?] at hitem
    have hl : isList state = true := by simp [isList, hrule, hitem]
    have hsep : sepAt state = some sep := by simp [sepAt, hrule, hitem]
    unfold advanceRule
    rw [hl, hsep]
    simp [hns]
  · intro state items inner sep hrule hitem hns
    rw [List.get?_eq_getElem?] at hitem
    have hl : isList state = true := by simp [isList, hrule, hitem]
    have hsep : sepAt state = some sep := by simp [sepAt, hrule, hitem]
    unfold advanceRule
    rw [hl, hsep]
    simp [hns]
  · intro state items inner sep hrule hitem hns
    rw [List.get?_eq_getElem?] at hitem
    have htol : tolerantAt (.seq items) state.step = true := by
      simp [tolerantAt, hitem]
    have hstep : unsuccessful state = advanceRule state false := by
      unfold unsuccessful
      rw [unsuccessfulAux]
      simp [hrule, htol]
    rw [hstep]
    have hl : isList state = true := by simp [isList, hrule, hitem]
    have hsep : sepAt state = some sep := by simp [sepAt, hrule, hitem]
    unfold advanceRule
    rw [hl, hsep]
    simp [hns]

/-- Witness for `c7_amended` at the concrete number list, including the
failure-path toggle that re-offers the element. -/
theorem c7_amended_witness :
    expectedAt (.seq itemsNumList) 0 true tokNumber =
      some (.terminal (p "," "punctuation")) ∧
    (expectedAt (.seq itemsNumList) 0 false tokNumber =
        some (.wrapped (.terminal (t "Number" "number")) true
          (some (.terminal (p "," "punctuation")))) ∧
      unwrapItem (.wrapped (.terminal (t "Number" "number")) true
          (some (.terminal (p "," "punctuation")))) =
        .terminal (t "Number" "number")) ∧
    advanceRule stListSep true = { stListSep with needsSeperator := false } ∧
    advanceRule stListElem true = { stListElem with needsSeperator := true } ∧
    unsuccessful stListSep = { stListSep with needsSeperator := false } :=
  ⟨c7_amended.1 itemsNumList 0 (.terminal (t "Number" "number"))
      (.terminal (p "," "punctuation")) tokNumber rfl,
   c7_amended.2.1 itemsNumList 0 (.terminal (t "Number" "number"))
      (.terminal (p "," "punctuation")) tokNumber rfl,
   c7_amended.2.2.1 stListSep itemsNumList (.terminal (t "Number" "number"))
      (.terminal (p "," "punctuation")) rfl rfl rfl,
   c7_amended.2.2.2.1 stListElem itemsNumList (.terminal (t "Number" "number"))
      (.terminal (p "," "punctuation")) rfl rfl rfl,
   c7_amended.2.2.2.2 stListSep itemsNumList (.terminal (t "Number" "number"))
      (.terminal (p "," "punctuation")) rfl rfl rfl⟩

/-! ### Claim C6 -/

theorem popRule_stack (s : PState) (c : SCore) (rest : List SCore)
    (h : s.stack = c :: rest) : (popRule s).stack = rest := by
  simp [popRule, h]

/-- The unwind loop's result does not depend on the fuel, as long as the
fuel exceeds the stack length (one frame is popped per iteration). -/
theorem unsuccessfulAux_congr :
    ∀ (f1 f2 : Nat) (s : PState), s.stack.length < f1 → s.stack.length < f2 →
      unsuccessfulAux f1 s = unsuccessfulAux f2 s := by
  intro f1
  induction f1 with
  | zero => intro f2 s h1 _; exact absurd h1 (Nat.not_lt_zero _)
  | succ f1 ih =>
    intro f2 s h1 h2
    cases f2 with
    | zero => exact absurd h2 (Nat.not_lt_zero _)
    | succ f2 =>
      rw [unsuccessfulAux, unsuccessfulAux]
      cases hrule : s.rule with
      | none => rfl
      | some r =>
        by_cases ht : tolerantAt r s.step = true
        · simp [ht]
        · have ht' := Bool.eq_false_iff.mpr ht
          simp only [ht', if_neg, Bool.false_eq_true, if_false]
          cases hstk : s.stack with
          | nil => rfl
          | cons c rest =>
            apply ih
            · have : s.stack.length = rest.length + 1 := by rw [hstk]; rfl
              rw [popRule_stack s c rest hstk]
              omega
            · rw [popRule_stack s c rest hstk]
              have : s.stack.length = rest.length + 1 := by rw [hstk]; rfl
              omega

theorem unsuccessful_eq_none (s : PState) (h : s.rule = none) :
    unsuccessful s = s := by
  unfold unsuccessful
  rw [unsuccessfulAux]
  simp [h]

theorem unsuccessful_eq_tolerant (s : PState) (r : RuleDef) (h : s.rule = some r)
    (ht : tolerantAt r s.step = true) : unsuccessful s = advanceRule s false := by
  unfold unsuccessful
  rw [unsuccessfulAux]
  simp [h, ht]

theorem unsuccessful_eq_stuck (s : PState) (r : RuleDef) (h : s.rule = some r)
    (ht : tolerantAt r s.step = false) (hstk : s.stack = []) :
    unsuccessful s = s := by
  unfold unsuccessful
  rw [unsuccessfulAux]
  simp [h, ht, hstk]

theorem unsuccessful_eq_pop (s : PState) (r : RuleDef) (h : s.rule = some r)
    (ht : tolerantAt r s.step = false) (c : SCore) (rest : List SCore)
    (hstk : s.stack = c :: rest) :
    unsuccessful s = unsuccessful (popRule s) := by
  unfold unsuccessful
  rw [unsuccessfulAux]
  simp only [h, ht, Bool.false_eq_true, if_false, hstk]
  apply unsuccessfulAux_congr
  · rw [popRule_stack s c rest hstk]
    simp
  · rw [popRule_stack s c rest hstk]
    simp

/-- The unwind characterization of C6: some number `n` of frames is popped,
every state passed on the way up was intolerant (a rule present whose
current item is not an `opt`/`list` wrapper) with a non-empty chain, and the
unwind stops at the first of: an empty stack of rules (state returned
as-is), a tolerant frame (advanced with `successful = false`), or a
stalled chain (the source would fault dereferencing a missing
`prevState`). -/
def unwindChar (s : PState) : Prop :=
  ∃ n : Nat,
    (∀ k, k < n → ∃ r, (popRule^[k] s).rule = some r ∧
        tolerantAt r (popRule^[k] s).step = false ∧ (popRule^[k] s).stack ≠ []) ∧
    (((popRule^[n] s).rule = none ∧ unsuccessful s = popRule^[n] s) ∨
     (∃ r, (popRule^[n] s).rule = some r ∧
        tolerantAt r (popRule^[n] s).step = true ∧
        unsuccessful s = advanceRule (popRule^[n] s) false) ∨
     ((popRule^[n] s).stack = [] ∧
        (∃ r, (popRule^[n] s).rule = some r ∧
          tolerantAt r (popRule^[n] s).step = false) ∧
        unsuccessful s = popRule^[n] s))

/-- C6: on a failed match the unwind pops frames upward exactly while the
current frame's current item is not an `opt`/`list` wrapper (a fork rule
never is), stopping at the empty stack or at the first tolerant frame; a
remaining tolerant frame is advanced with `successful = false`; and the
token loop then retries the very same token against the unwound state. -/
theorem c6_unwind :
    (∀ s : PState, unwindChar s) ∧
    (∀ (ParseRules : Grammar) (token : Token) (fuel : Nat) (s : PState) (r : RuleDef),
      s.rule = some r →
      (match (expectedAt r s.step s.needsSeperator token).map unwrapItem with
        | none => True
        | some (.ruleName _) => False
        | some (.wrapped _ _ _) => True
        | some (.terminal term) => term.matchFn token = false) →
      tokenLoop ParseRules token (fuel + 1) s =
        tokenLoop ParseRules token fuel (unsuccessful s)) := by
  constructor
  · have main : ∀ (len : Nat) (s : PState), s.stack.length ≤ len → unwindChar s := by
      intro len
      induction len with
      | zero =>
        intro s hle
        cases hrule : s.rule with
        | none =>
          exact ⟨0, fun k hk => absurd hk (Nat.not_lt_zero k),
            Or.inl ⟨hrule, unsuccessful_eq_none s hrule⟩⟩
        | some r =>
          by_cases ht : tolerantAt r s.step = true
          · exact ⟨0, fun k hk => absurd hk (Nat.not_lt_zero k),
              Or.inr (Or.inl ⟨r, hrule, ht, unsuccessful_eq_tolerant s r hrule ht⟩)⟩
          · have ht' := Bool.eq_false_iff.mpr ht
            have hstk : s.stack = [] := List.length_eq_zero.mp (Nat.le_zero.mp hle)
            exact ⟨0, fun k hk => absurd hk (Nat.not_lt_zero k),
              Or.inr (Or.inr ⟨hstk, ⟨r, hrule, ht'⟩,
                unsuccessful_eq_stuck s r hrule ht' hstk⟩)⟩
      | succ len ih =>
        intro s hle
        cases hrule : s.rule with
        | none =>
          exact ⟨0, fun k hk => absurd hk (Nat.not_lt_zero k),
            Or.inl ⟨hrule, unsuccessful_eq_none s hrule⟩⟩
        | some r =>
          by_cases ht : tolerantAt r s.step = true
          · exact ⟨0, fun k hk => absurd hk (Nat.not_lt_zero k),
              Or.inr (Or.inl ⟨r, hrule, ht, unsuccessful_eq_tolerant s r hrule ht⟩)⟩
          · have ht' := Bool.eq_false_iff.mpr ht
            cases hstk : s.stack with
            | nil =>
              exact ⟨0, fun k hk => absurd hk (Nat.not_lt_zero k),
                Or.inr (Or.inr ⟨hstk, ⟨r, hrule, ht'⟩,
                  unsuccessful_eq_stuck s r hrule ht' hstk⟩)⟩
            | cons c rest =>
              obtain ⟨n, h1, h2⟩ := ih (popRule s) (by
                rw [popRule_stack s c rest hstk]
                have : s.stack.length = rest.length + 1 := by rw [hstk]; rfl
                omega)
              refine ⟨n + 1, ?_, ?_⟩
              · intro k hk
                cases k with
                | zero =>
                  refine ⟨r, ?_, ?_, ?_⟩
                  · rw [Function.iterate_zero_apply]; exact hrule
                  · rw [Function.iterate_zero_apply]; exact ht'
                  · rw [Function.iterate_zero_apply, hstk]; simp
                | succ j =>
                  rw [Function.iterate_succ_apply]
                  exact h1 j (Nat.lt_of_succ_lt_succ hk)
              · rw [Function.iterate_succ_apply,
                  unsuccessful_eq_pop s r hrule ht' c rest hstk]
                exact h2
    exact fun s => main s.stack.length s (Nat.le_refl _)
  · intro ParseRules token fuel s r hrule hfail
    rw [tokenLoop, hrule]
    revert hfail
    cases hexp : expectedAt r s.step s.needsSeperator token with
    | none => intro hfail; simp [hexp]
    | some e =>
      cases hu : unwrapItem e with
      | ruleName name => intro hfail; simp [hexp, hu] at hfail
      | wrapped i l sep => intro hfail; simp [hexp, hu]
      | terminal term =>
        intro hfail
        simp only [Option.map_some', hexp, hu] at hfail
        simp [hexp, hu, hfail]

/-- Witness for `c6_unwind`: the characterization at a fresh parser state,
and the same-token retry where the grammar's `Name` terminal rejects a
`Number` token. -/
theorem c6_unwind_witness :
    unwindChar (startState gNameOnly) ∧
    tokenLoop gNameOnly tokNumber (9 + 1) (startState gNameOnly) =
      tokenLoop gNameOnly tokNumber 9 (unsuccessful (startState gNameOnly)) :=
  ⟨c6_unwind.1 (startState gNameOnly),
   c6_unwind.2 gNameOnly tokNumber 9 (startState gNameOnly)
     (.seq [.terminal (t "Name" "name")]) rfl rfl⟩

/-! ### Claim C8 -/

/-- Effect of the per-call preamble on the lazily-created fields: `levels`
is untouched, `needsAdvance` is either untouched or has just been cleared to
`some false`, and a present `indentLevel` stays present. -/
theorem preTokenState_fields (tabSize : Nat) (inp : TokenInput) (st : PState) :
    (preTokenState tabSize inp st).levels = st.levels ∧
    ((preTokenState tabSize inp st).needsAdvance = st.needsAdvance ∨
      (preTokenState tabSize inp st).needsAdvance = some false) ∧
    (st.indentLevel.isSome = true →
      (preTokenState tabSize inp st).indentLevel.isSome = true) := by
  unfold preTokenState
  simp only []
  split
  · split
    · obtain ⟨ha, hb, hc⟩ := lazyFields_proj
        (lazyFields_advanceRule { st with needsAdvance := some false } true)
      exact ⟨hc, Or.inr ha, fun _ => rfl⟩
    · exact ⟨rfl, Or.inl rfl, fun _ => rfl⟩
  · split
    · obtain ⟨ha, hb, hc⟩ := lazyFields_proj
        (lazyFields_advanceRule { st with needsAdvance := some false } true)
      exact ⟨hc, Or.inr ha, fun h => by rw [hb]; exact h⟩
    · exact ⟨rfl, Or.inl rfl, fun h => h⟩

/-- A cache compatible with a state is compatible with the state after the
per-call preamble. -/
theorem cacheCompat_pre (tabSize : Nat) (inp : TokenInput) (st c : PState)
    (hc : cacheCompat st c) : cacheCompat (preTokenState tabSize inp st) c := by
  obtain ⟨hlv, hna, hil⟩ := preTokenState_fields tabSize inp st
  obtain ⟨c1, c2, c3⟩ := hc
  refine ⟨?_, ?_, ?_⟩
  · intro h
    rcases hna with hna | hna
    · rw [hna]; exact c1 h
    · rw [hna]; rfl
  · intro h
    exact hil (c2 h)
  · intro h
    rw [hlv]; exact c3 h

/-- Restores through snapshots of the same state taken over two compatible
caches agree: any field the snapshot lacks is absent from both caches. -/
theorem restore_congr (pre c c' s1 : PState)
    (hc : cacheCompat pre c) (hc' : cacheCompat pre c') :
    restoreState s1 (saveState c pre) = restoreState s1 (saveState c' pre) := by
  obtain ⟨hc1, hc2, hc3⟩ := hc
  obtain ⟨hd1, hd2, hd3⟩ := hc'
  obtain ⟨⟨lv, k, nm, ty, r, st, ns, na, il, lvs⟩, stk⟩ := pre
  simp only [restoreState, saveState, assign] at *
  refine congrArg (fun z => PState.mk z stk) ?_
  have e1 : (na.or c.needsAdvance).or s1.needsAdvance =
      (na.or c'.needsAdvance).or s1.needsAdvance := by
    cases hna : na with
    | some b => rfl
    | none =>
      cases hcc : c.needsAdvance with
      | some b => have := hc1 (by rw [hcc]; rfl); rw [hna] at this; cases this
      | none =>
        cases hdd : c'.needsAdvance with
        | some b => have := hd1 (by rw [hdd]; rfl); rw [hna] at this; cases this
        | none => rfl
  have e2 : (il.or c.indentLevel).or s1.indentLevel =
      (il.or c'.indentLevel).or s1.indentLevel := by
    cases hil : il with
    | some b => rfl
    | none =>
      cases hcc : c.indentLevel with
      | some b => have := hc2 (by rw [hcc]; rfl); rw [hil] at this; cases this
      | none =>
        cases hdd : c'.indentLevel with
        | some b => have := hd2 (by rw [hdd]; rfl); rw [hil] at this; cases this
        | none => rfl
  have e3 : (lvs.or c.levels).or s1.levels = (lvs.or c'.levels).or s1.levels := by
    cases hlvs : lvs with
    | some b => rfl
    | none =>
      cases hcc : c.levels with
      | some b => have := hc3 (by rw [hcc]; rfl); rw [hlvs] at this; cases this
      | none =>
        cases hdd : c'.levels with
        | some b => have := hd3 (by rw [hdd]; rfl); rw [hlvs] at this; cases this
        | none => rfl
  rw [e1, e2, e3]

/-- The style tag and resulting state of `getToken` do not depend on the
cache contents, for caches compatible with the incoming state. -/
theorem getToken_congr (ParseRules : Grammar) (tabSize fuel : Nat) (inp : TokenInput)
    (st c c' : PState) (hc : cacheCompat st c) (hc' : cacheCompat st c') :
    (getToken ParseRules tabSize fuel inp st c).map (fun r => (r.1, r.2.1)) =
      (getToken ParseRules tabSize fuel inp st c').map (fun r => (r.1, r.2.1)) := by
  have hcp := cacheCompat_pre tabSize inp st c hc
  have hcp' := cacheCompat_pre tabSize inp st c' hc'
  unfold getToken
  simp only []
  split
  · rfl
  · split
    · rfl
    · split
      · rfl
      · rename_i token heq
        cases hloop : tokenLoop ParseRules token fuel
            (updateLevels (preTokenState tabSize inp st) token) with
        | none => simp [hloop]
        | some res =>
          cases res with
          | matched sty s1 => simp [hloop]
          | exhausted s1 =>
            simp only [hloop]
            simp [restore_congr (preTokenState tabSize inp st) c c' s1 hcp hcp']

theorem or_isSome_left {α : Type} (a b : Option α) (h : a.isSome = true) :
    (a.or b).isSome = true := by
  cases a
  · cases h
  · rfl

theorem isSome_of_or {α : Type} (a b : Option α) (h : (a.or b).isSome = true) :
    a.isSome = true ∨ b.isSome = true := by
  cases a
  · exact Or.inr h
  · exact Or.inl rfl

/-- A machine call preserves cache compatibility: the produced state is
compatible with the produced cache. -/
theorem getToken_compat (ParseRules : Grammar) (tabSize fuel : Nat) (inp : TokenInput)
    (st c : PState) (sty : String) (s' c2 : PState)
    (hc : cacheCompat st c)
    (h : getToken ParseRules tabSize fuel inp st c = some (sty, s', c2)) :
    cacheCompat s' c2 := by
  have hcp := cacheCompat_pre tabSize inp st c hc
  unfold getToken at h
  simp only [] at h
  revert h
  split
  · intro h
    injection h with h
    injection h with h1 h2
    injection h2 with h2 h3
    subst h2; subst h3
    exact hcp
  · split
    · intro h
      injection h with h
      injection h with h1 h2
      injection h2 with h2 h3
      subst h2; subst h3
      exact hcp
    · split
      · intro h
        injection h with h
        injection h with h1 h2
        injection h2 with h2 h3
        subst h2; subst h3
        exact hcp
      · rename_i token heq
        have hsave : (saveState c (preTokenState tabSize inp st)).needsAdvance =
              (preTokenState tabSize inp st).needsAdvance.or c.needsAdvance ∧
            (saveState c (preTokenState tabSize inp st)).indentLevel =
              (preTokenState tabSize inp st).indentLevel.or c.indentLevel ∧
            (saveState c (preTokenState tabSize inp st)).levels =
              (preTokenState tabSize inp st).levels.or c.levels := by
          simp [saveState, assign]
        obtain ⟨hs1, hs2, hs3⟩ := hsave
        cases hloop : tokenLoop ParseRules token fuel
            (updateLevels (preTokenState tabSize inp st) token) with
        | none => intro h; cases h
        | some res =>
          cases res with
          | matched sty1 s1 =>
            intro h
            injection h with h
            injection h with h1 h2
            injection h2 with h2 h3
            subst h2; subst h3
            obtain ⟨hm1, hm2, hm3⟩ :=
              tokenLoop_matched_fields ParseRules token fuel _ _ _ hloop
            refine ⟨?_, ?_, ?_⟩
            · intro hx
              rw [hs1] at hx
              have hpre : (preTokenState tabSize inp st).needsAdvance.isSome = true := by
                rcases isSome_of_or _ _ hx with hy | hy
                · exact hy
                · exact hcp.1 hy
              rcases hm3 with hm | hm
              · rw [hm, updateLevels_needsAdvance]; exact hpre
              · rw [hm]; rfl
            · intro hx
              rw [hs2] at hx
              have hpre : (preTokenState tabSize inp st).indentLevel.isSome = true := by
                rcases isSome_of_or _ _ hx with hy | hy
                · exact hy
                · exact hcp.2.1 hy
              rw [hm1]
              exact updateLevels_indentLevel_isSome _ _ hpre
            · intro hx
              rw [hs3] at hx
              have hpre : (preTokenState tabSize inp st).levels.isSome = true := by
                rcases isSome_of_or _ _ hx with hy | hy
                · exact hy
                · exact hcp.2.2 hy
              rw [hm2]
              exact updateLevels_levels_isSome _ _ hpre
          | exhausted s1 =>
            intro h
            injection h with h
            injection h with h1 h2
            injection h2 with h2 h3
            subst h2; subst h3
            have hrest : (restoreState s1 (saveState c (preTokenState tabSize inp st))).needsAdvance =
                  (saveState c (preTokenState tabSize inp st)).needsAdvance.or s1.needsAdvance ∧
                (restoreState s1 (saveState c (preTokenState tabSize inp st))).indentLevel =
                  (saveState c (preTokenState tabSize inp st)).indentLevel.or s1.indentLevel ∧
                (restoreState s1 (saveState c (preTokenState tabSize inp st))).levels =
                  (saveState c (preTokenState tabSize inp st)).levels.or s1.levels := by
              simp [restoreState, assign]
            obtain ⟨hr1, hr2, hr3⟩ := hrest
            exact ⟨fun hx => by rw [hr1]; exact or_isSome_left _ _ hx,
              fun hx => by rw [hr2]; exact or_isSome_left _ _ hx,
              fun hx => by rw [hr3]; exact or_isSome_left _ _ hx⟩

/-- Step equation for `runTokens` when the first call fails (runs out of
rule-loop fuel). -/
theorem runTokens_cons_none (ParseRules : Grammar) (tabSize fuel : Nat)
    (inp : TokenInput) (rest : List TokenInput) (st c : PState)
    (hg : getToken ParseRules tabSize fuel inp st c = none) :
    runTokens ParseRules tabSize fuel (inp :: rest) st c = none := by
  rw [runTokens, hg]

/-- Step equation for `runTokens` on a successful first call. -/
theorem runTokens_cons_some (ParseRules : Grammar) (tabSize fuel : Nat)
    (inp : TokenInput) (rest : List TokenInput) (st c : PState)
    (sty : String) (s' c2 : PState)
    (hg : getToken ParseRules tabSize fuel inp st c = some (sty, s', c2)) :
    runTokens ParseRules tabSize fuel (inp :: rest) st c =
      match runTokens ParseRules tabSize fuel rest s' c2 with
      | none => none
      | some (styles, s, cF) => some (sty :: styles, s, cF) := by
  rw [runTokens, hg]

/-- C8, part used for the one-pass/resume comparison, as a standalone
induction: runs over compatible caches agree on styles and states and
preserve compatibility. -/
theorem runTokens_congr (ParseRules : Grammar) (tabSize fuel : Nat) :
    ∀ (inps : List TokenInput) (st c c' : PState),
      cacheCompat st c → cacheCompat st c' →
      (runTokens ParseRules tabSize fuel inps st c).map (fun r => (r.1, r.2.1)) =
        (runTokens ParseRules tabSize fuel inps st c').map (fun r => (r.1, r.2.1)) := by
  intro inps
  induction inps with
  | nil => intro st c c' _ _; rfl
  | cons inp rest ih =>
    intro st c c' hc hc'
    have hcongr := getToken_congr ParseRules tabSize fuel inp st c c' hc hc'
    cases hg : getToken ParseRules tabSize fuel inp st c with
    | none =>
      rw [hg] at hcongr
      cases hg' : getToken ParseRules tabSize fuel inp st c' with
      | none =>
        rw [runTokens_cons_none ParseRules tabSize fuel inp rest st c hg,
          runTokens_cons_none ParseRules tabSize fuel inp rest st c' hg']
      | some r => rw [hg'] at hcongr; cases hcongr
    | some r =>
      obtain ⟨sty, s', c2⟩ := r
      rw [hg] at hcongr
      cases hg' : getToken ParseRules tabSize fuel inp st c' with
      | none => rw [hg'] at hcongr; cases hcongr
      | some r' =>
        obtain ⟨sty', s'', c2'⟩ := r'
        rw [hg'] at hcongr
        simp only [Option.map_some', Option.some.injEq, Prod.mk.injEq] at hcongr
        obtain ⟨hsty, hstate⟩ := hcongr
        subst hsty; subst hstate
        have h2 := getToken_compat ParseRules tabSize fuel inp st c sty s' c2 hc hg
        have h2' := getToken_compat ParseRules tabSize fuel inp st c' sty s' c2' hc' hg'
        have hrest := ih s' c2 c2' h2 h2'
        rw [runTokens_cons_some ParseRules tabSize fuel inp rest st c sty s' c2 hg,
          runTokens_cons_some ParseRules tabSize fuel inp rest st c' sty s' c2' hg']
        cases hr : runTokens ParseRules tabSize fuel rest s' c2 with
        | none =>
          rw [hr] at hrest
          cases hr' : runTokens ParseRules tabSize fuel rest s' c2' with
          | none => rfl
          | some q => rw [hr'] at hrest; cases hrest
        | some q =>
          obtain ⟨styles, sF, cF⟩ := q
          rw [hr] at hrest
          cases hr' : runTokens ParseRules tabSize fuel rest s' c2' with
          | none => rw [hr'] at hrest; cases hrest
          | some q' =>
            obtain ⟨styles', sF', cF'⟩ := q'
            rw [hr'] at hrest
            simp only [Option.map_some', Option.some.injEq, Prod.mk.injEq] at hrest
            obtain ⟨ha, hb⟩ := hrest
            subst ha; subst hb
            rfl

/-- The three-terminal grammar of the C8 counterexample. -/
def gNameParenNumber : Grammar := fun name =>
  if name == "Document" then
    some (.seq [.terminal (t "Name" "name"), .terminal (p "(" "punctuation"),
      .terminal (t "Number" "number")])
  else none

/-- C8 (counterexample): the claim says one-pass results equal
resume-from-snapshot results unconditionally, the resulting state included.
On grammar `Document = [Name, "(", Number]` with tokens
`Name, Number, "(", Number` the one pass ends with `levels = [1]`; resuming
after token 1 from a field-for-field snapshot of the state, with the cache
the machine's module left behind (its last save holds `levels = [1]`), the
invalid second token's restore injects the stale `levels` (the snapshot of a
levels-less state cannot clear it) and the run ends with `levels = [1, 1]` —
the styles agree but the states diverge, so `getToken`'s result does not
depend on the state's field values alone. -/
theorem c8_counterexample :
    (match runTokens gNameParenNumber 2 10
        [inpOf tokName true, inpOf tokNumber false, inpOf tokOpenParen false,
          inpOf tokNumber false]
        (startState gNameParenNumber) initialState,
      runTokens gNameParenNumber 2 10 [inpOf tokName true]
        (startState gNameParenNumber) initialState with
     | some (_, sEnd, cEnd), some (_, s1, _) =>
        sEnd.levels = some [1] ∧
        ((runTokens gNameParenNumber 2 10
            [inpOf tokNumber false, inpOf tokOpenParen false, inpOf tokNumber false]
            s1 cEnd).map fun r => (r.1, r.2.1.levels)) =
          some (["invalidchar", "punctuation", "number"], some [1, 1])
     | _, _ => False) := ⟨rfl, rfl⟩

/-- C8 (amended): (i) parsing a token list in one pass splits at any
position — the styles, final state and final cache of the whole run are
those of the run on the prefix continued, from its resulting state and
cache, on the suffix; and (ii) the per-token results (style tag and state)
are independent of the hidden cache exactly for caches compatible with the
state (every lazily-created field present in the cache is present in the
state) — so resuming from a field-for-field snapshot of the state reproduces
the one-pass styles and states under that compatibility proviso, which the
counterexample shows cannot be dropped: a stale cache field the state lacks
is injected by a later restore. -/
theorem c8_restartability :
    (∀ (ParseRules : Grammar) (tabSize fuel : Nat) (xs ys : List TokenInput)
        (st c : PState),
      runTokens ParseRules tabSize fuel (xs ++ ys) st c =
        match runTokens ParseRules tabSize fuel xs st c with
        | none => none
        | some (s1, st1, c1) =>
          match runTokens ParseRules tabSize fuel ys st1 c1 with
          | none => none
          | some (s2, st2, c2) => some (s1 ++ s2, st2, c2)) ∧
    (∀ (ParseRules : Grammar) (tabSize fuel : Nat) (ys : List TokenInput)
        (st c c' : PState),
      cacheCompat st c → cacheCompat st c' →
      (runTokens ParseRules tabSize fuel ys st c).map (fun r => (r.1, r.2.1)) =
        (runTokens ParseRules tabSize fuel ys st c').map (fun r => (r.1, r.2.1))) := by
  constructor
  · intro ParseRules tabSize fuel xs
    induction xs with
    | nil =>
      intro ys st c
      simp only [List.nil_append, runTokens]
      cases hr : runTokens ParseRules tabSize fuel ys st c with
      | none => rfl
      | some q => obtain ⟨styles, sF, cF⟩ := q; simp
    | cons inp rest ih =>
      intro ys st c
      simp only [List.cons_append]
      cases hg : getToken ParseRules tabSize fuel inp st c with
      | none =>
        rw [runTokens_cons_none ParseRules tabSize fuel inp (rest ++ ys) st c hg,
          runTokens_cons_none ParseRules tabSize fuel inp rest st c hg]
      | some r =>
        obtain ⟨sty, s', c2⟩ := r
        rw [runTokens_cons_some ParseRules tabSize fuel inp (rest ++ ys) st c sty s' c2 hg,
          runTokens_cons_some ParseRules tabSize fuel inp rest st c sty s' c2 hg,
          ih ys s' c2]
        cases hr : runTokens ParseRules tabSize fuel rest s' c2 with
        | none => rfl
        | some q =>
          obtain ⟨styles, sF, cF⟩ := q
          simp only []
          cases hr2 : runTokens ParseRules tabSize fuel ys sF cF with
          | none => simp [hr2]
          | some q2 => obtain ⟨styles2, sG, cG⟩ := q2; simp [hr2]
  · intro ParseRules tabSize fuel ys st c c' hc hc'
    exact runTokens_congr ParseRules tabSize fuel ys st c c' hc hc'

/-- Witness for `c8_restartability`: a two-token run over the paren-number
grammar split after the first token, and the same suffix run over the
polluted-by-save versus empty cache. -/
theorem c8_restartability_witness :
    runTokens gParenNumber 2 10
        ([inpOf tokOpenParen true] ++ [inpOf tokNumber false])
        (startState gParenNumber) initialState =
      (match runTokens gParenNumber 2 10 [inpOf tokOpenParen true]
          (startState gParenNumber) initialState with
        | none => none
        | some (s1, st1, c1) =>
          match runTokens gParenNumber 2 10 [inpOf tokNumber false] st1 c1 with
          | none => none
          | some (s2, st2, c2) => some (s1 ++ s2, st2, c2)) ∧
    (runTokens gNameOnly 2 10 [inpOf tokName true] (startState gNameOnly)
        initialState).map (fun r => (r.1, r.2.1)) =
      (runTokens gNameOnly 2 10 [inpOf tokName true] (startState gNameOnly)
        (saveState initialState (startState gNameOnly))).map (fun r => (r.1, r.2.1)) :=
  ⟨c8_restartability.1 gParenNumber 2 10 [inpOf tokOpenParen true]
      [inpOf tokNumber false] (startState gParenNumber) initialState,
   c8_restartability.2 gNameOnly 2 10 [inpOf tokName true] (startState gNameOnly)
      initialState (saveState initialState (startState gNameOnly))
      (by decide) (by decide)⟩
